import Mathlib

/-!
# Multi-send balance-change calculation: embedding and verification

This file gives a shallow embedding of the Rust function
`calculate_balance_changes` (src/src/main.rs) together with proofs about it.

Modelling choices:
* Rust `i128` amounts become unbounded `Int` (no claim touches 128-bit
  overflow); Rust integer division `/` (truncation toward zero, panicking on a
  zero divisor) becomes `Int.tdiv` guarded by an explicit divisor-zero check.
* Rust `HashMap` becomes an association list updated in place (first binding
  wins), new keys appended at the end.  Every map in the source is only ever
  accessed through `insert` / `entry().or_insert` / `get`, which the list
  operations below mirror exactly.
* The `f64` rates become exact rationals `ℚ`; `(x as f64 * rate).ceil() as
  i128` becomes the exact ceiling `⌈x * rate⌉`, computed by the executable
  `ceilMulRat` (proved equal to `⌈x * rate⌉` in `ceilMulRat_eq`).
* A Rust panic (`Option::unwrap` on `None`, division by zero) is modelled as
  the explicit outcome `panicked`, distinct from the `Err` return values of
  the function.
-/

namespace MultiSendCalc

structure Coin where
  denom : String
  amount : Int
deriving DecidableEq

structure Balance where
  address : String
  coins : List Coin
deriving DecidableEq

structure DenomDefinition where
  denom : String
  issuer : String
  burn_rate : ℚ
  commission_rate : ℚ
deriving DecidableEq

structure MultiSend where
  inputs : List Balance
  outputs : List Balance

inductive CalcError where
  | undefinedDefinition
  | inputOutputMismatch
  | notEnoughBalance
deriving DecidableEq

inductive PanicKind where
  | unwrapNone
  | divByZero
deriving DecidableEq

/-- Outcome of the whole calculation. -/
inductive CalcResult where
  | ok (changes : List Balance)
  | err (e : CalcError)
  | panicked (p : PanicKind)
deriving DecidableEq

/-- Outcome of one step (or a prefix) of the fee-application loop. -/
inductive StepResult where
  | ok (led : List (String × List (String × Int)))
  | err (e : CalcError)
  | panicked (p : PanicKind)
deriving DecidableEq

/-- Amount map: the model of Rust `HashMap<String, i128>`. -/
abbrev AmountMap := List (String × Int)

/-- The working ledger: the model of `HashMap<String, HashMap<String, i128>>`. -/
abbrev Ledger := List (String × AmountMap)

/-- Definition lookup table: the model of `HashMap<String, DenomDefinition>`. -/
abbrev DefMap := List (String × DenomDefinition)

/-- `HashMap::insert`: overwrite the binding of `k`, appending if absent. -/
def mapInsert {V : Type} : List (String × V) → String → V → List (String × V)
  | [], k, v => [(k, v)]
  | (k', v') :: rest, k, v =>
    if k' = k then (k, v) :: rest else (k', v') :: mapInsert rest k v

/-- `*map.entry(k).or_insert(0) += d` (also `.and_modify(|e| *e += d).or_insert(d)`). -/
def addAmt : AmountMap → String → Int → AmountMap
  | [], k, d => [(k, d)]
  | (k', v') :: rest, k, d =>
    if k' = k then (k', v' + d) :: rest else (k', v') :: addAmt rest k d

/-- `result.entry(addr).or_insert(HashMap::new()).insert(denom, v)`. -/
def ledgerSet : Ledger → String → String → Int → Ledger
  | [], addr, denom, v => [(addr, [(denom, v)])]
  | (a, m) :: rest, addr, denom, v =>
    if a = addr then (a, mapInsert m denom v) :: rest
    else (a, m) :: ledgerSet rest addr denom v

/-- `result.entry(addr).or_insert(HashMap::new()).entry(denom)` followed by
    `+= d` (or `.and_modify(|e| *e += d).or_insert(d)`). -/
def ledgerAdd : Ledger → String → String → Int → Ledger
  | [], addr, denom, d => [(addr, [(denom, d)])]
  | (a, m) :: rest, addr, denom, d =>
    if a = addr then (a, addAmt m denom d) :: rest
    else (a, m) :: ledgerAdd rest addr denom d

/-- `result.get(addr).and_then(|m| m.get(denom))`. -/
def ledgerLookup (led : Ledger) (addr denom : String) : Option Int :=
  (List.lookup addr led).bind (fun m => List.lookup denom m)

/-- Exact value of Rust `(share as f64 * rate).ceil() as i128`, with the `f64`
    arithmetic idealised to exact rational arithmetic: `⌈share * rate⌉`,
    written with integer operations so that it evaluates in the kernel.
    `rate.den` is positive, so the floor division is well defined. -/
def ceilMulRat (share : Int) (rate : ℚ) : Int :=
  -(Int.fdiv (-(share * rate.num)) (rate.den : Int))

/-- Seeding of the working ledger from `original_balances` (lines 129-138). -/
def buildLedger (balances : List Balance) : Ledger :=
  balances.foldl
    (fun led b => b.coins.foldl (fun l c => ledgerSet l b.address c.denom c.amount) led) []

/-- `definition_map` construction (lines 140-144). -/
def buildDefMap (definitions : List DenomDefinition) : DefMap :=
  definitions.foldl (fun m d => mapInsert m d.denom d) []

/-- Flattening of the two nested `for balance / for coin` loops into the
    sequence of (address, coin) legs they visit. -/
def legsOf : List Balance → List (String × Coin)
  | [] => []
  | b :: rest => b.coins.map (fun c => (b.address, c)) ++ legsOf rest

/-- Accumulation of `total_*` and `non_issuer_*` for one side of the transfer
    (lines 151-164 for inputs, 166-179 for outputs).  The `non_issuer` entry is
    created with `or_insert(0)` even for issuer legs, exactly as in the source. -/
def aggregateLegs (defMap : DefMap) :
    List (String × Coin) → AmountMap → AmountMap → Except CalcError (AmountMap × AmountMap)
  | [], tot, nonIss => .ok (tot, nonIss)
  | (addr, c) :: rest, tot, nonIss =>
    match List.lookup c.denom defMap with
    | none => .error .undefinedDefinition
    | some defn =>
      let tot' := addAmt tot c.denom c.amount
      let nonIss₀ := addAmt nonIss c.denom 0
      let nonIss' := if defn.issuer ≠ addr then addAmt nonIss₀ c.denom c.amount else nonIss₀
      aggregateLegs defMap rest tot' nonIss'

/-- The conservation check (lines 181-186): every denom present in
    `total_input` must have the same total in `total_output` (absent = 0).
    Denoms present only in `total_output` are *not* visited. -/
def checkConservation (totIn totOut : AmountMap) : Bool :=
  totIn.all (fun p => ((List.lookup p.1 totOut).getD 0) == p.2)

/-- Tail of the input-leg body (lines 212-223): sufficiency check, sender
    debit, commission credit to the issuer entry. -/
def settleLeg (led : Ledger) (addr : String) (c : Coin) (original_balance : Int)
    (defn : DenomDefinition) (burn commission : Int) : StepResult :=
  let new_amount := c.amount + burn + commission
  if original_balance < new_amount then .err .notEnoughBalance
  else
    .ok (ledgerAdd (ledgerSet led addr c.denom (original_balance - new_amount))
          defn.issuer c.denom commission)

/-- Body of the fee-application loop (lines 188-224) for one leg `(addr, c)`.
    The lookups happen in source order; `.unwrap()` on a missing entry and the
    division by a zero `total_input` are the modelled panics. -/
def processLeg (defMap : DefMap) (nonIn nonOut totIn : AmountMap)
    (led : Ledger) (addr : String) (c : Coin) : StepResult :=
  match List.lookup c.denom defMap with
  | none => .panicked .unwrapNone
  | some defn =>
    match ledgerLookup led addr c.denom with
    | none => .err .notEnoughBalance
    | some original_balance =>
      match List.lookup c.denom nonIn with
      | none => .panicked .unwrapNone
      | some non_issuer_input_val =>
        match List.lookup c.denom nonOut with
        | none => .panicked .unwrapNone
        | some non_issuer_output_val =>
          let burn_amount :=
            if non_issuer_input_val > non_issuer_output_val then non_issuer_output_val
            else non_issuer_input_val
          match List.lookup c.denom totIn with
          | none => .panicked .unwrapNone
          | some total_input_val =>
            if defn.issuer ≠ addr then
              if total_input_val = 0 then .panicked .divByZero
              else
                let share := Int.tdiv (c.amount * burn_amount) total_input_val
                let burn := ceilMulRat share defn.burn_rate
                let commission := ceilMulRat share defn.commission_rate
                settleLeg led addr c original_balance defn burn commission
            else settleLeg led addr c original_balance defn 0 0

/-- The fee-application loop over all input legs. -/
def applyInputs (defMap : DefMap) (nonIn nonOut totIn : AmountMap) :
    List (String × Coin) → Ledger → StepResult
  | [], led => .ok led
  | (addr, c) :: rest, led =>
    match processLeg defMap nonIn nonOut totIn led addr c with
    | .ok led' => applyInputs defMap nonIn nonOut totIn rest led'
    | .err e => .err e
    | .panicked p => .panicked p

/-- The output-credit loop (lines 226-236). -/
def applyOutputs : List (String × Coin) → Ledger → Ledger
  | [], led => led
  | (addr, c) :: rest, led => applyOutputs rest (ledgerAdd led addr c.denom c.amount)

/-- Conversion of the final working ledger to `final_balances` (lines 238-246). -/
def ledgerToBalances (led : Ledger) : List Balance :=
  led.map (fun p => ⟨p.1, p.2.map (fun q => ⟨q.1, q.2⟩)⟩)

/-- The diff stage (lines 248-279).  For an address present in
    `original_balances`, a delta is recorded only for the final coins whose
    denom also occurs in the address's original coins; an address absent from
    the snapshot is kept only if some final amount is non-zero. -/
def diffBalances (original_balances : List Balance) : List Balance → List Balance
  | [] => []
  | fb :: rest =>
    match original_balances.find? (fun b => b.address == fb.address) with
    | some ob =>
      let change_coins := fb.coins.filterMap (fun fc =>
        (ob.coins.find? (fun oc => oc.denom == fc.denom)).map
          (fun oc => Coin.mk oc.denom (fc.amount - oc.amount)))
      Balance.mk fb.address change_coins :: diffBalances original_balances rest
    | none =>
      if fb.coins.all (fun c => c.amount == 0) then diffBalances original_balances rest
      else fb :: diffBalances original_balances rest

/-- The embedding of `calculate_balance_changes` (src/src/main.rs lines
    124-281). -/
def calculate_balance_changes (original_balances : List Balance)
    (definitions : List DenomDefinition) (multi_send_tx : MultiSend) : CalcResult :=
  let result := buildLedger original_balances
  let definition_map := buildDefMap definitions
  match aggregateLegs definition_map (legsOf multi_send_tx.inputs) [] [] with
  | .error e => .err e
  | .ok (total_input, non_issuer_input) =>
    match aggregateLegs definition_map (legsOf multi_send_tx.outputs) [] [] with
    | .error e => .err e
    | .ok (total_output, non_issuer_output) =>
      if checkConservation total_input total_output then
        match applyInputs definition_map non_issuer_input non_issuer_output total_input
            (legsOf multi_send_tx.inputs) result with
        | .err e => .err e
        | .panicked p => .panicked p
        | .ok led =>
          .ok (diffBalances original_balances
                (ledgerToBalances (applyOutputs (legsOf multi_send_tx.outputs) led)))
      else .err .inputOutputMismatch

/-- Sum of the delta amounts recorded for denom `dn` over a list of balance
    records. -/
def deltaSumFor (dn : String) (changes : List Balance) : Int :=
  (legsOf changes).foldl (fun s p => if p.2.denom = dn then s + p.2.amount else s) 0

/-! ## Spec-side definitions

These re-state, in the words of the specification, the per-leg fee formulas
and the order-of-processing insufficiency condition.  They are *second*
definitions, written from the spec text, to be compared with the embedding
above. -/

/-- Spec wording: `share = amount * burn_base / total_input` with
    `burn_base = min(non_issuer_input, non_issuer_output)` (absent entries
    read as 0). -/
def specLegBase (nonIn nonOut totIn : AmountMap) (c : Coin) : Int :=
  Int.tdiv
    (c.amount * min ((List.lookup c.denom nonIn).getD 0) ((List.lookup c.denom nonOut).getD 0))
    ((List.lookup c.denom totIn).getD 0)

/-- Spec wording: `burn = ceiling(share * burn_rate)`, zero on issuer legs. -/
def specLegBurn (defn : DenomDefinition) (nonIn nonOut totIn : AmountMap)
    (addr : String) (c : Coin) : Int :=
  if addr = defn.issuer then 0
  else ceilMulRat (specLegBase nonIn nonOut totIn c) defn.burn_rate

/-- Spec wording: `commission = ceiling(share * commission_rate)`, zero on
    issuer legs. -/
def specLegCommission (defn : DenomDefinition) (nonIn nonOut totIn : AmountMap)
    (addr : String) (c : Coin) : Int :=
  if addr = defn.issuer then 0
  else ceilMulRat (specLegBase nonIn nonOut totIn c) defn.commission_rate

/-- Spec wording: required debit of a sender for one leg,
    `amount + burn + commission`. -/
def specRequiredDebit (defn : DenomDefinition) (nonIn nonOut totIn : AmountMap)
    (addr : String) (c : Coin) : Int :=
  c.amount + specLegBurn defn nonIn nonOut totIn addr c +
    specLegCommission defn nonIn nonOut totIn addr c

/-- Spec wording of the insufficiency condition: processing input legs in
    order over the working ledger, some leg's sender has no ledger entry for
    the leg's denom, or holds strictly less than `amount + burn + commission`;
    after a successful leg the sender is debited and the issuer credited the
    commission. -/
def firstShortfall (defMap : DefMap) (nonIn nonOut totIn : AmountMap) :
    List (String × Coin) → Ledger → Bool
  | [], _ => false
  | (addr, c) :: rest, led =>
    match List.lookup c.denom defMap with
    | none => false
    | some defn =>
      match ledgerLookup led addr c.denom with
      | none => true
      | some bal =>
        if bal < specRequiredDebit defn nonIn nonOut totIn addr c then true
        else firstShortfall defMap nonIn nonOut totIn rest
          (ledgerAdd
            (ledgerSet led addr c.denom (bal - specRequiredDebit defn nonIn nonOut totIn addr c))
            defn.issuer c.denom (specLegCommission defn nonIn nonOut totIn addr c))

/-- The per-leg side conditions under which the fee loop can neither panic on
    a missing map entry nor divide by zero. -/
def legOK (defMap : DefMap) (totIn nonIn nonOut : AmountMap) (p : String × Coin) : Prop :=
  (List.lookup p.2.denom defMap).isSome ∧
  (∃ v : Int, List.lookup p.2.denom totIn = some v ∧ v ≠ 0) ∧
  (List.lookup p.2.denom nonIn).isSome ∧
  (List.lookup p.2.denom nonOut).isSome

/-! ## Concrete scenarios used by the claim theorems -/

/-- Failing input for C1/C3: account B exists in the snapshot but holds no
    coin of denom "d"; the transfer credits it 5 "d". -/
def dropOrig : List Balance := [⟨"A", [⟨"d", 10⟩]⟩, ⟨"B", [⟨"c", 1⟩]⟩]

def dropDefs : List DenomDefinition := [⟨"d", "iss", 0, 0⟩]

def dropTx : MultiSend := ⟨[⟨"A", [⟨"d", 5⟩]⟩], [⟨"B", [⟨"d", 5⟩]⟩]⟩

/-- Failing input for C2: denom "d" appears only among the output legs. -/
def outOnlyDefs : List DenomDefinition := [⟨"d", "iss", 0, 0⟩]

def outOnlyTx : MultiSend := ⟨[], [⟨"B", [⟨"d", 5⟩]⟩]⟩

/-- Counterexample input for C6: the zero-amount leg (A, d, 0) panics on the
    missing `non_issuer_output["d"]` entry before the leg of sender B — who
    has no ledger entry for "e" — is ever checked. -/
def panicOrig : List Balance := [⟨"A", [⟨"d", 5⟩]⟩]

def panicDefs : List DenomDefinition := [⟨"d", "iss", 0, 0⟩, ⟨"e", "iss2", 0, 0⟩]

def panicTx : MultiSend :=
  ⟨[⟨"A", [⟨"d", 0⟩]⟩, ⟨"B", [⟨"e", 10⟩]⟩], [⟨"C", [⟨"e", 10⟩]⟩]⟩

/-- Counterexample input for C7: total input of "d" is zero yet the non-issuer
    leg reaches the proportional-share division. -/
def divZeroOrig : List Balance := [⟨"A", [⟨"d", 5⟩]⟩]

def divZeroDefs : List DenomDefinition := [⟨"d", "iss", 0, 0⟩]

def divZeroTx : MultiSend := ⟨[⟨"A", [⟨"d", 0⟩]⟩], [⟨"C", [⟨"d", 0⟩]⟩]⟩

/-- C8: reference scenario 2 of the spec (test_case_2 of the source). -/
def refOrig : List Balance :=
  [⟨"account1", [⟨"denom1", 1000000⟩]⟩, ⟨"account2", [⟨"denom1", 1000000⟩]⟩]

def refDefs : List DenomDefinition :=
  [⟨"denom1", "issuer_account_A", mkRat 8 100, mkRat 12 100⟩]

def refTx : MultiSend :=
  ⟨[⟨"account1", [⟨"denom1", 650⟩]⟩, ⟨"account2", [⟨"denom1", 350⟩]⟩],
   [⟨"account_recipient", [⟨"denom1", 500⟩]⟩, ⟨"issuer_account_A", [⟨"denom1", 500⟩]⟩]⟩

/-- C10: a negative input leg, with input and output totals equal. -/
def negOrig : List Balance := [⟨"A", [⟨"d", 10⟩]⟩]

def negDefs : List DenomDefinition := [⟨"d", "iss", 0, 0⟩]

def negTx : MultiSend := ⟨[⟨"A", [⟨"d", -5⟩]⟩], [⟨"C", [⟨"d", -5⟩]⟩]⟩

/-- C4 counterexample input: negative amounts make the truncating division
    differ from the floor the claim prescribes (25 / -3: truncation -8,
    floor -9), and with burn_rate 1 the fee differs accordingly. -/
def tdivOrig : List Balance := [⟨"A", [⟨"d", 0⟩]⟩, ⟨"iss", [⟨"d", 5⟩]⟩]

def tdivDefs : List DenomDefinition := [⟨"d", "iss", 1, 0⟩]

def tdivTx : MultiSend :=
  ⟨[⟨"A", [⟨"d", -5⟩]⟩, ⟨"iss", [⟨"d", 2⟩]⟩], [⟨"C", [⟨"d", -3⟩]⟩]⟩

/-! ## Lemmas about the map operations -/

theorem lookup_cons' {V : Type} (k k' : String) (v : V) (tl : List (String × V)) :
    List.lookup k ((k', v) :: tl) = if k = k' then some v else List.lookup k tl := by
  by_cases h : k = k'
  · subst h
    simp [List.lookup]
  · simp [List.lookup, beq_eq_false_iff_ne.mpr h, h]

theorem lookup_mapInsert_self {V : Type} (m : List (String × V)) (k : String) (v : V) :
    List.lookup k (mapInsert m k v) = some v := by
  induction m with
  | nil => simp [mapInsert, lookup_cons']
  | cons hd tl ih =>
    obtain ⟨k', v'⟩ := hd
    by_cases h : k' = k
    · simp [mapInsert, h, lookup_cons']
    · simp [mapInsert, h, lookup_cons', Ne.symm h, ih]

theorem lookup_mapInsert_ne {V : Type} (m : List (String × V)) {k k' : String}
    (h : k' ≠ k) (v : V) : List.lookup k' (mapInsert m k v) = List.lookup k' m := by
  induction m with
  | nil =>
    show List.lookup k' [(k, v)] = List.lookup k' []
    rw [lookup_cons']
    simp [h, List.lookup]
  | cons hd tl ih =>
    obtain ⟨k₀, v₀⟩ := hd
    by_cases h0 : k₀ = k
    · subst h0
      simp [mapInsert, lookup_cons', h]
    · simp [mapInsert, h0, lookup_cons', ih]

theorem lookup_addAmt_self (m : AmountMap) (k : String) (d : Int) :
    List.lookup k (addAmt m k d) = some ((List.lookup k m).getD 0 + d) := by
  induction m with
  | nil => simp [addAmt, lookup_cons', List.lookup]
  | cons hd tl ih =>
    obtain ⟨k', v'⟩ := hd
    by_cases h : k' = k
    · subst h
      simp [addAmt, lookup_cons']
    · simp [addAmt, h, lookup_cons', Ne.symm h, ih]

theorem lookup_addAmt_ne (m : AmountMap) {k k' : String} (h : k' ≠ k) (d : Int) :
    List.lookup k' (addAmt m k d) = List.lookup k' m := by
  induction m with
  | nil =>
    show List.lookup k' [(k, d)] = List.lookup k' []
    rw [lookup_cons']
    simp [h, List.lookup]
  | cons hd tl ih =>
    obtain ⟨k₀, v₀⟩ := hd
    by_cases h0 : k₀ = k
    · subst h0
      simp [addAmt, lookup_cons', h]
    · simp [addAmt, h0, lookup_cons', ih]

theorem isSome_lookup_addAmt (m : AmountMap) (k k' : String) (d : Int) :
    (List.lookup k' (addAmt m k d)).isSome ↔ k' = k ∨ (List.lookup k' m).isSome := by
  by_cases h : k' = k
  · subst h
    simp [lookup_addAmt_self]
  · simp [lookup_addAmt_ne m h, h]

theorem ledgerLookup_cons (a : String) (m : AmountMap) (rest : Ledger)
    (addr denom : String) :
    ledgerLookup ((a, m) :: rest) addr denom =
      if addr = a then List.lookup denom m else ledgerLookup rest addr denom := by
  by_cases h : addr = a <;> simp [ledgerLookup, lookup_cons', h]

theorem ledgerLookup_set_self (led : Ledger) (addr denom : String) (v : Int) :
    ledgerLookup (ledgerSet led addr denom v) addr denom = some v := by
  induction led with
  | nil => simp [ledgerSet, ledgerLookup, List.lookup, lookup_mapInsert_self]
  | cons hd tl ih =>
    obtain ⟨a, m⟩ := hd
    by_cases h : a = addr
    · subst h
      simp [ledgerSet, ledgerLookup_cons, lookup_mapInsert_self]
    · simp [ledgerSet, h, ledgerLookup_cons, Ne.symm h, ih]

theorem ledgerLookup_add_self (led : Ledger) (addr denom : String) (d : Int) :
    ledgerLookup (ledgerAdd led addr denom d) addr denom =
      some ((ledgerLookup led addr denom).getD 0 + d) := by
  induction led with
  | nil => simp [ledgerAdd, ledgerLookup, List.lookup]
  | cons hd tl ih =>
    obtain ⟨a, m⟩ := hd
    by_cases h : a = addr
    · subst h
      simp [ledgerAdd, ledgerLookup_cons, lookup_addAmt_self]
    · simp [ledgerAdd, h, ledgerLookup_cons, Ne.symm h, ih]

theorem lookup_mem {V : Type} (m : List (String × V)) (k : String) (v : V)
    (h : List.lookup k m = some v) : (k, v) ∈ m := by
  induction m with
  | nil => simp [List.lookup] at h
  | cons hd tl ih =>
    obtain ⟨k', v'⟩ := hd
    rw [lookup_cons'] at h
    by_cases hk : k = k'
    · subst hk
      simp at h
      simp [h]
    · simp [hk] at h
      simp [ih h]

/-- The exact-rational ceiling helper really is the ceiling of
    `share * rate`. -/
theorem ceilMulRat_eq (share : Int) (rate : ℚ) :
    ceilMulRat share rate = ⌈(share : ℚ) * rate⌉ := by
  unfold ceilMulRat
  rw [Int.fdiv_eq_ediv _ (by positivity)]
  rw [← Rat.floor_intCast_div_natCast]
  rw [show ((-(share * rate.num) : Int) : ℚ) / (rate.den : ℚ) = -((share : ℚ) * rate) by
    push_cast
    rw [neg_div, mul_div_assoc]
    congr 2
    exact_mod_cast Rat.num_div_den rate]
  rw [Int.floor_neg, neg_neg]

/-- Rust's `if a > b { b } else { a }` is `min a b`. -/
theorem if_gt_min (a b : Int) : (if a > b then b else a) = min a b := by
  rcases le_total a b with h | h
  · simp [min_eq_left h, not_lt.mpr h]
  · rcases lt_or_eq_of_le h with h' | h'
    · simp [min_eq_right h, h']
    · simp [h', min_self]

/-! ## Lemmas about aggregation and the conservation check -/

theorem aggregateLegs_defined (defMap : DefMap) (legs : List (String × Coin)) :
    ∀ (tot nonIss tot' nonIss' : AmountMap),
      aggregateLegs defMap legs tot nonIss = .ok (tot', nonIss') →
      ∀ p ∈ legs, (List.lookup p.2.denom defMap).isSome := by
  induction legs with
  | nil =>
    intro _ _ _ _ _ p hp
    simp at hp
  | cons hd rest ih =>
    obtain ⟨addr, c⟩ := hd
    intro tot nonIss tot' nonIss' h p hp
    cases hdef : List.lookup c.denom defMap with
    | none => simp [aggregateLegs, hdef] at h
    | some defn =>
      simp only [aggregateLegs, hdef] at h
      rcases List.mem_cons.mp hp with rfl | hmem
      · simp [hdef]
      · exact ih _ _ _ _ h p hmem

theorem aggregateLegs_mono (defMap : DefMap) (legs : List (String × Coin)) :
    ∀ (tot nonIss tot' nonIss' : AmountMap),
      aggregateLegs defMap legs tot nonIss = .ok (tot', nonIss') →
      ∀ dn : String,
        ((List.lookup dn tot).isSome → (List.lookup dn tot').isSome) ∧
        ((List.lookup dn nonIss).isSome → (List.lookup dn nonIss').isSome) := by
  induction legs with
  | nil =>
    intro tot nonIss tot' nonIss' h dn
    simp only [aggregateLegs, Except.ok.injEq, Prod.mk.injEq] at h
    obtain ⟨h1, h2⟩ := h
    subst h1
    subst h2
    exact ⟨id, id⟩
  | cons hd rest ih =>
    obtain ⟨addr, c⟩ := hd
    intro tot nonIss tot' nonIss' h dn
    cases hdef : List.lookup c.denom defMap with
    | none => simp [aggregateLegs, hdef] at h
    | some defn =>
      simp only [aggregateLegs, hdef] at h
      refine ⟨fun hs => (ih _ _ _ _ h dn).1 ?_, fun hs => (ih _ _ _ _ h dn).2 ?_⟩
      · exact (isSome_lookup_addAmt _ _ _ _).mpr (Or.inr hs)
      · by_cases hi : defn.issuer ≠ addr
        · rw [if_pos hi]
          exact (isSome_lookup_addAmt _ _ _ _).mpr
            (Or.inr ((isSome_lookup_addAmt _ _ _ _).mpr (Or.inr hs)))
        · rw [if_neg hi]
          exact (isSome_lookup_addAmt _ _ _ _).mpr (Or.inr hs)

theorem aggregateLegs_keys (defMap : DefMap) (legs : List (String × Coin)) :
    ∀ (tot nonIss tot' nonIss' : AmountMap),
      aggregateLegs defMap legs tot nonIss = .ok (tot', nonIss') →
      ∀ p ∈ legs, (List.lookup p.2.denom tot').isSome ∧ (List.lookup p.2.denom nonIss').isSome := by
  induction legs with
  | nil =>
    intro _ _ _ _ _ p hp
    simp at hp
  | cons hd rest ih =>
    obtain ⟨addr, c⟩ := hd
    intro tot nonIss tot' nonIss' h p hp
    cases hdef : List.lookup c.denom defMap with
    | none => simp [aggregateLegs, hdef] at h
    | some defn =>
      simp only [aggregateLegs, hdef] at h
      rcases List.mem_cons.mp hp with rfl | hmem
      · constructor
        · exact (aggregateLegs_mono defMap rest _ _ _ _ h _).1
            ((isSome_lookup_addAmt _ _ _ _).mpr (Or.inl rfl))
        · refine (aggregateLegs_mono defMap rest _ _ _ _ h _).2 ?_
          by_cases hi : defn.issuer ≠ addr
          · rw [if_pos hi]
            exact (isSome_lookup_addAmt _ _ _ _).mpr (Or.inl rfl)
          · rw [if_neg hi]
            exact (isSome_lookup_addAmt _ _ _ _).mpr (Or.inl rfl)
      · exact ih _ _ _ _ h p hmem

theorem aggregateLegs_keys_iff (defMap : DefMap) (legs : List (String × Coin)) :
    ∀ (tot nonIss tot' nonIss' : AmountMap),
      aggregateLegs defMap legs tot nonIss = .ok (tot', nonIss') →
      (∀ dn : String, (List.lookup dn tot).isSome ↔ (List.lookup dn nonIss).isSome) →
      ∀ dn : String, (List.lookup dn tot').isSome ↔ (List.lookup dn nonIss').isSome := by
  induction legs with
  | nil =>
    intro tot nonIss tot' nonIss' h hinv dn
    simp only [aggregateLegs, Except.ok.injEq, Prod.mk.injEq] at h
    obtain ⟨h1, h2⟩ := h
    subst h1
    subst h2
    exact hinv dn
  | cons hd rest ih =>
    obtain ⟨addr, c⟩ := hd
    intro tot nonIss tot' nonIss' h hinv dn
    cases hdef : List.lookup c.denom defMap with
    | none => simp [aggregateLegs, hdef] at h
    | some defn =>
      simp only [aggregateLegs, hdef] at h
      refine ih _ _ _ _ h (fun dn' => ?_) dn
      by_cases hi : defn.issuer ≠ addr
      · rw [if_pos hi, isSome_lookup_addAmt, isSome_lookup_addAmt, isSome_lookup_addAmt,
          hinv dn']
        tauto
      · rw [if_neg hi, isSome_lookup_addAmt, isSome_lookup_addAmt, hinv dn']

theorem checkConservation_lookup {totIn totOut : AmountMap}
    (h : checkConservation totIn totOut = true) {dn : String} {v : Int}
    (hv : List.lookup dn totIn = some v) : (List.lookup dn totOut).getD 0 = v := by
  have hm := lookup_mem totIn dn v hv
  have hall := List.all_eq_true.mp h _ hm
  exact beq_iff_eq.mp hall

theorem checkConservation_lookup_some {totIn totOut : AmountMap}
    (h : checkConservation totIn totOut = true) {dn : String} {v : Int}
    (hv : List.lookup dn totIn = some v) (hnz : v ≠ 0) :
    List.lookup dn totOut = some v := by
  have hd := checkConservation_lookup h hv
  cases ho : List.lookup dn totOut with
  | none =>
    rw [ho] at hd
    simp at hd
    exact absurd hd.symm hnz
  | some w =>
    rw [ho] at hd
    simp at hd
    rw [hd]

theorem lookup_foldl_mapInsert_none (dn : String) (defs : List DenomDefinition) :
    ∀ m : DefMap, (∀ defn ∈ defs, defn.denom ≠ dn) → List.lookup dn m = none →
      List.lookup dn (defs.foldl (fun acc d => mapInsert acc d.denom d) m) = none := by
  induction defs with
  | nil =>
    intro m _ hm
    simpa using hm
  | cons d rest ih =>
    intro m h hm
    simp only [List.foldl_cons]
    refine ih _ (fun q hq => h q (List.mem_cons_of_mem _ hq)) ?_
    rw [lookup_mapInsert_ne _ (Ne.symm (h d (List.mem_cons_self d rest)))]
    exact hm

/-- A denom named by no entry of the definitions catalog is absent from the
    definition map. -/
theorem lookup_buildDefMap_none (definitions : List DenomDefinition) (dn : String)
    (h : ∀ defn ∈ definitions, defn.denom ≠ dn) :
    List.lookup dn (buildDefMap definitions) = none :=
  lookup_foldl_mapInsert_none dn definitions [] h (by simp [List.lookup])

theorem aggregateLegs_err_of_none (defMap : DefMap) (legs : List (String × Coin)) :
    ∀ tot nonIss : AmountMap, (∃ p ∈ legs, List.lookup p.2.denom defMap = none) →
      aggregateLegs defMap legs tot nonIss = .error .undefinedDefinition := by
  induction legs with
  | nil =>
    intro _ _ h
    simp at h
  | cons hd rest ih =>
    obtain ⟨addr, c⟩ := hd
    intro tot nonIss h
    cases hdef : List.lookup c.denom defMap with
    | none => simp [aggregateLegs, hdef]
    | some defn =>
      simp only [aggregateLegs, hdef]
      apply ih
      rcases h with ⟨p, hp, hnone⟩
      rcases List.mem_cons.mp hp with rfl | hmem
      · rw [hdef] at hnone
        cases hnone
      · exact ⟨p, hmem, hnone⟩

theorem aggregateLegs_ok_of_defined (defMap : DefMap) (legs : List (String × Coin)) :
    ∀ tot nonIss : AmountMap, (∀ p ∈ legs, (List.lookup p.2.denom defMap).isSome) →
      ∃ t n : AmountMap, aggregateLegs defMap legs tot nonIss = .ok (t, n) := by
  induction legs with
  | nil =>
    intro tot nonIss _
    exact ⟨tot, nonIss, rfl⟩
  | cons hd rest ih =>
    obtain ⟨addr, c⟩ := hd
    intro tot nonIss h
    have hsome := h (addr, c) (List.mem_cons_self _ _)
    rcases Option.isSome_iff_exists.mp hsome with ⟨defn, hdef⟩
    simp only [aggregateLegs, hdef]
    exact ih _ _ (fun p hp => h p (List.mem_cons_of_mem _ hp))

/-! ## The fee-application loop against the spec-side formulas -/

/-- Under the lookups that hold once the fee loop is reached with a non-zero
    total input for the leg's denom, one loop iteration checks and debits
    exactly the spec-side required debit, and credits exactly the spec-side
    commission. -/
theorem processLeg_eq (defMap : DefMap) (nonIn nonOut totIn : AmountMap)
    (led : Ledger) (addr : String) (c : Coin) (defn : DenomDefinition)
    (niv nov tv : Int)
    (hdef : List.lookup c.denom defMap = some defn)
    (hni : List.lookup c.denom nonIn = some niv)
    (hno : List.lookup c.denom nonOut = some nov)
    (hti : List.lookup c.denom totIn = some tv) (htv : tv ≠ 0) :
    processLeg defMap nonIn nonOut totIn led addr c =
      match ledgerLookup led addr c.denom with
      | none => .err .notEnoughBalance
      | some bal =>
        if bal < specRequiredDebit defn nonIn nonOut totIn addr c then .err .notEnoughBalance
        else
          .ok (ledgerAdd
            (ledgerSet led addr c.denom
              (bal - specRequiredDebit defn nonIn nonOut totIn addr c))
            defn.issuer c.denom (specLegCommission defn nonIn nonOut totIn addr c)) := by
  unfold processLeg
  cases hbal : ledgerLookup led addr c.denom with
  | none => simp [hdef]
  | some bal =>
    simp only [hdef, hni, hno, hti]
    by_cases hiss : defn.issuer = addr
    · rw [if_neg (by simp [hiss])]
      simp [settleLeg, specRequiredDebit, specLegBurn, specLegCommission, hiss]
    · rw [if_pos hiss, if_neg htv]
      simp [settleLeg, specRequiredDebit, specLegBurn, specLegCommission, specLegBase,
        hni, hno, hti, if_gt_min, Ne.symm hiss]

theorem processLeg_none (defMap : DefMap) (nonIn nonOut totIn : AmountMap)
    (led : Ledger) (addr : String) (c : Coin) (defn : DenomDefinition)
    (niv nov tv : Int)
    (hdef : List.lookup c.denom defMap = some defn)
    (hni : List.lookup c.denom nonIn = some niv)
    (hno : List.lookup c.denom nonOut = some nov)
    (hti : List.lookup c.denom totIn = some tv) (htv : tv ≠ 0)
    (hbal : ledgerLookup led addr c.denom = none) :
    processLeg defMap nonIn nonOut totIn led addr c = .err .notEnoughBalance := by
  rw [processLeg_eq defMap nonIn nonOut totIn led addr c defn niv nov tv hdef hni hno hti htv,
    hbal]

theorem processLeg_some (defMap : DefMap) (nonIn nonOut totIn : AmountMap)
    (led : Ledger) (addr : String) (c : Coin) (defn : DenomDefinition)
    (niv nov tv : Int)
    (hdef : List.lookup c.denom defMap = some defn)
    (hni : List.lookup c.denom nonIn = some niv)
    (hno : List.lookup c.denom nonOut = some nov)
    (hti : List.lookup c.denom totIn = some tv) (htv : tv ≠ 0)
    (bal : Int) (hbal : ledgerLookup led addr c.denom = some bal) :
    processLeg defMap nonIn nonOut totIn led addr c =
      if bal < specRequiredDebit defn nonIn nonOut totIn addr c then .err .notEnoughBalance
      else
        .ok (ledgerAdd
          (ledgerSet led addr c.denom (bal - specRequiredDebit defn nonIn nonOut totIn addr c))
          defn.issuer c.denom (specLegCommission defn nonIn nonOut totIn addr c)) := by
  rw [processLeg_eq defMap nonIn nonOut totIn led addr c defn niv nov tv hdef hni hno hti htv,
    hbal]

theorem applyInputs_cases (defMap : DefMap) (nonIn nonOut totIn : AmountMap)
    (legs : List (String × Coin)) :
    (∀ p ∈ legs, legOK defMap totIn nonIn nonOut p) → ∀ led : Ledger,
      (∃ led', applyInputs defMap nonIn nonOut totIn legs led = .ok led') ∨
      applyInputs defMap nonIn nonOut totIn legs led = .err .notEnoughBalance := by
  induction legs with
  | nil =>
    intro _ led
    exact Or.inl ⟨led, rfl⟩
  | cons hd rest ih =>
    obtain ⟨addr, c⟩ := hd
    intro h led
    obtain ⟨hdefS, ⟨tv, hti, htv⟩, hniS, hnoS⟩ := h _ (List.mem_cons_self _ _)
    rcases Option.isSome_iff_exists.mp hdefS with ⟨defn, hdef⟩
    rcases Option.isSome_iff_exists.mp hniS with ⟨niv, hni⟩
    rcases Option.isSome_iff_exists.mp hnoS with ⟨nov, hno⟩
    simp only [applyInputs]
    cases hbal : ledgerLookup led addr c.denom with
    | none =>
      rw [processLeg_none defMap nonIn nonOut totIn led addr c defn niv nov tv
        hdef hni hno hti htv hbal]
      exact Or.inr rfl
    | some bal =>
      rw [processLeg_some defMap nonIn nonOut totIn led addr c defn niv nov tv
        hdef hni hno hti htv bal hbal]
      by_cases hlt : bal < specRequiredDebit defn nonIn nonOut totIn addr c
      · rw [if_pos hlt]
        exact Or.inr rfl
      · rw [if_neg hlt]
        exact ih (fun p hp => h p (List.mem_cons_of_mem _ hp)) _

theorem applyInputs_insufficient_iff (defMap : DefMap) (nonIn nonOut totIn : AmountMap)
    (legs : List (String × Coin)) :
    (∀ p ∈ legs, legOK defMap totIn nonIn nonOut p) → ∀ led : Ledger,
      (applyInputs defMap nonIn nonOut totIn legs led = .err .notEnoughBalance ↔
       firstShortfall defMap nonIn nonOut totIn legs led = true) := by
  induction legs with
  | nil =>
    intro _ led
    simp [applyInputs, firstShortfall]
  | cons hd rest ih =>
    obtain ⟨addr, c⟩ := hd
    intro h led
    obtain ⟨hdefS, ⟨tv, hti, htv⟩, hniS, hnoS⟩ := h _ (List.mem_cons_self _ _)
    rcases Option.isSome_iff_exists.mp hdefS with ⟨defn, hdef⟩
    rcases Option.isSome_iff_exists.mp hniS with ⟨niv, hni⟩
    rcases Option.isSome_iff_exists.mp hnoS with ⟨nov, hno⟩
    simp only [applyInputs, firstShortfall, hdef]
    cases hbal : ledgerLookup led addr c.denom with
    | none =>
      rw [processLeg_none defMap nonIn nonOut totIn led addr c defn niv nov tv
        hdef hni hno hti htv hbal]
      simp
    | some bal =>
      rw [processLeg_some defMap nonIn nonOut totIn led addr c defn niv nov tv
        hdef hni hno hti htv bal hbal]
      by_cases hlt : bal < specRequiredDebit defn nonIn nonOut totIn addr c
      · rw [if_pos hlt]
        simp [hlt]
      · rw [if_neg hlt]
        have hrest := ih (fun p hp => h p (List.mem_cons_of_mem _ hp))
          (ledgerAdd
            (ledgerSet led addr c.denom
              (bal - specRequiredDebit defn nonIn nonOut totIn addr c))
            defn.issuer c.denom (specLegCommission defn nonIn nonOut totIn addr c))
        simpa [hlt] using hrest

/-- Once aggregation has succeeded on both sides, the conservation check has
    passed, and every input denom has a non-zero total, every input leg
    satisfies the no-panic side conditions. -/
theorem legOK_of {defs : List DenomDefinition} {ins outs : List Balance}
    {totIn nonIn totOut nonOut : AmountMap}
    (hIn : aggregateLegs (buildDefMap defs) (legsOf ins) [] [] = .ok (totIn, nonIn))
    (hOut : aggregateLegs (buildDefMap defs) (legsOf outs) [] [] = .ok (totOut, nonOut))
    (hCons : checkConservation totIn totOut = true)
    (hNZ : ∀ p ∈ legsOf ins, List.lookup p.2.denom totIn ≠ some 0) :
    ∀ p ∈ legsOf ins, legOK (buildDefMap defs) totIn nonIn nonOut p := by
  intro p hp
  have hdef := aggregateLegs_defined _ _ _ _ _ _ hIn p hp
  have hkeys := aggregateLegs_keys _ _ _ _ _ _ hIn p hp
  rcases Option.isSome_iff_exists.mp hkeys.1 with ⟨v, hv⟩
  have hvnz : v ≠ 0 := fun h0 => hNZ p hp (h0 ▸ hv)
  have hout : List.lookup p.2.denom totOut = some v :=
    checkConservation_lookup_some hCons hv hvnz
  have hiff := aggregateLegs_keys_iff _ _ _ _ _ _ hOut
    (fun dn => by simp [List.lookup]) p.2.denom
  refine ⟨hdef, ⟨v, hv, hvnz⟩, hkeys.2, hiff.mp ?_⟩
  rw [hout]
  rfl

/-! ## Stage lemmas for the top-level function -/

theorem calculate_eq_err_aggIn {o : List Balance} {defs : List DenomDefinition}
    {tx : MultiSend} {e : CalcError}
    (hIn : aggregateLegs (buildDefMap defs) (legsOf tx.inputs) [] [] = .error e) :
    calculate_balance_changes o defs tx = .err e := by
  simp only [calculate_balance_changes, hIn]

theorem calculate_eq_err_aggOut {o : List Balance} {defs : List DenomDefinition}
    {tx : MultiSend} {totIn nonIn : AmountMap} {e : CalcError}
    (hIn : aggregateLegs (buildDefMap defs) (legsOf tx.inputs) [] [] = .ok (totIn, nonIn))
    (hOut : aggregateLegs (buildDefMap defs) (legsOf tx.outputs) [] [] = .error e) :
    calculate_balance_changes o defs tx = .err e := by
  simp only [calculate_balance_changes, hIn, hOut]

theorem calculate_eq_err_imbalanced {o : List Balance} {defs : List DenomDefinition}
    {tx : MultiSend} {totIn nonIn totOut nonOut : AmountMap}
    (hIn : aggregateLegs (buildDefMap defs) (legsOf tx.inputs) [] [] = .ok (totIn, nonIn))
    (hOut : aggregateLegs (buildDefMap defs) (legsOf tx.outputs) [] [] = .ok (totOut, nonOut))
    (hCons : checkConservation totIn totOut = false) :
    calculate_balance_changes o defs tx = .err .inputOutputMismatch := by
  simp only [calculate_balance_changes, hIn, hOut, hCons]
  rfl

theorem calculate_eq_of_stages (o : List Balance) {defs : List DenomDefinition}
    {tx : MultiSend} {totIn nonIn totOut nonOut : AmountMap}
    (hIn : aggregateLegs (buildDefMap defs) (legsOf tx.inputs) [] [] = .ok (totIn, nonIn))
    (hOut : aggregateLegs (buildDefMap defs) (legsOf tx.outputs) [] [] = .ok (totOut, nonOut))
    (hCons : checkConservation totIn totOut = true) :
    calculate_balance_changes o defs tx =
      match applyInputs (buildDefMap defs) nonIn nonOut totIn (legsOf tx.inputs)
          (buildLedger o) with
      | .err e => .err e
      | .panicked p => .panicked p
      | .ok led =>
        .ok (diffBalances o (ledgerToBalances (applyOutputs (legsOf tx.outputs) led))) := by
  simp only [calculate_balance_changes, hIn, hOut, hCons]
  rfl

/-! ## Claim theorems -/

/-- C1: the conservation property fails on the code as written.  On the
    accepted transfer `dropTx` both rates are 0, so the total burn is 0 and
    the deltas of denom "d" should sum to 0; they sum to -5 because the +5
    credit of "d" to the existing account "B" (which held no "d" in the
    snapshot) is dropped by the diff stage. -/
theorem conservation_violated_on_dropTx :
    calculate_balance_changes dropOrig dropDefs dropTx =
      .ok [⟨"A", [⟨"d", -5⟩]⟩, ⟨"B", [⟨"c", 0⟩]⟩] ∧
    deltaSumFor "d" [⟨"A", [⟨"d", -5⟩]⟩, ⟨"B", [⟨"c", 0⟩]⟩] = -5 := by
  decide

/-- C2: a transfer whose denom "d" appears only in the output legs, with
    non-zero total, is *not* rejected: the conservation loop iterates only
    over `total_input`, so `outOnlyTx` is accepted and credits 5 "d" from
    nowhere instead of failing with `ImbalancedTransfer`. -/
theorem output_only_denom_accepted :
    calculate_balance_changes [] outOnlyDefs outOnlyTx = .ok [⟨"B", [⟨"d", 5⟩]⟩] := by
  decide

/-- C3: on the accepted transfer `dropTx`, account "B" existed in the
    snapshot without denom "d" and ends holding 5 "d" in the final working
    ledger, yet its returned delta record carries only the "c" coin: the
    `final - 0` delta for the newly received denom is never emitted. -/
theorem new_denom_delta_dropped :
    calculate_balance_changes dropOrig dropDefs dropTx =
      .ok [⟨"A", [⟨"d", -5⟩]⟩, ⟨"B", [⟨"c", 0⟩]⟩] ∧
    ledgerLookup (buildLedger dropOrig) "B" "d" = none := by
  decide

/-- C4 counterexample: on the accepted transfer `tdivTx` (all totals equal,
    burn rate 1, commission rate 0), the non-issuer leg (A, d, -5) has
    `share = (-5 * min (-5) (-3)) / (-3) = 25 / -3`, which the code truncates
    to -8 while the claimed integer floor is -9; with burn rate 1 the
    floor-based debit would be -14 (sender delta +14), but the code debits
    -13 (sender delta +13). -/
theorem share_floor_counterexample :
    calculate_balance_changes tdivOrig tdivDefs tdivTx =
      .ok [⟨"A", [⟨"d", 13⟩]⟩, ⟨"iss", [⟨"d", -2⟩]⟩, ⟨"C", [⟨"d", -3⟩]⟩] ∧
    Int.fdiv ((-5) * min (-5) (-3)) (-3) = -9 ∧
    (-5 : Int) + ceilMulRat (-9) 1 + ceilMulRat (-9) 0 = -14 ∧
    (13 : Int) ≠ -(-14) := by
  decide

/-- C4 (amended): for a non-issuer input leg processed by the fee loop, with
    all four map entries present, a *positive* denomination-wide total input
    as divisor, and a non-negative numerator `amount * burn_base` (the case of
    ordinary non-negative transfers, where truncation and floor agree), the
    leg's burn is `⌈share * burn_rate⌉` and its commission is
    `⌈share * commission_rate⌉` for `share = ⌊amount * burn_base /
    total_input⌋` with `burn_base = min(non_issuer_input, non_issuer_output)`,
    rounded up independently, and the sender's required debit is
    `amount + burn + commission`.  (The unamended claim, with a floor for
    arbitrary sign, fails: see the counterexample.) -/
theorem nonissuer_leg_fees (defMap : DefMap) (nonIn nonOut totIn : AmountMap)
    (led : Ledger) (addr : String) (c : Coin) (defn : DenomDefinition)
    (niv nov tv bal : Int)
    (hdef : List.lookup c.denom defMap = some defn)
    (hiss : addr ≠ defn.issuer)
    (hni : List.lookup c.denom nonIn = some niv)
    (hno : List.lookup c.denom nonOut = some nov)
    (hti : List.lookup c.denom totIn = some tv)
    (hbal : ledgerLookup led addr c.denom = some bal)
    (hpos : 0 < tv) (hnn : 0 ≤ c.amount * min niv nov) :
    processLeg defMap nonIn nonOut totIn led addr c =
      (let share := Int.fdiv (c.amount * min niv nov) tv
       let burn := ⌈(share : ℚ) * defn.burn_rate⌉
       let commission := ⌈(share : ℚ) * defn.commission_rate⌉
       if bal < c.amount + burn + commission then .err .notEnoughBalance
       else
         .ok (ledgerAdd (ledgerSet led addr c.denom (bal - (c.amount + burn + commission)))
           defn.issuer c.denom commission)) := by
  have htdiv : Int.tdiv (c.amount * min niv nov) tv = Int.fdiv (c.amount * min niv nov) tv := by
    rw [Int.tdiv_eq_ediv hnn (le_of_lt hpos), Int.fdiv_eq_ediv _ (le_of_lt hpos)]
  rw [processLeg_some defMap nonIn nonOut totIn led addr c defn niv nov tv hdef hni hno hti
    (ne_of_gt hpos) bal hbal]
  simp only [specRequiredDebit, specLegBurn, specLegCommission, specLegBase, hni, hno, hti,
    Option.getD_some, if_neg hiss, ceilMulRat_eq, htdiv]

/-- C4 witness: the theorem applied to the leg (account1, 650 denom1) of
    reference scenario 2. -/
theorem nonissuer_leg_fees_witness :
    processLeg [("denom1", ⟨"denom1", "issuer_account_A", mkRat 8 100, mkRat 12 100⟩)]
      [("denom1", 1000)] [("denom1", 500)] [("denom1", 1000)]
      [("account1", [("denom1", 1000000)])] "account1" ⟨"denom1", 650⟩ =
      (let share := Int.fdiv (650 * min 1000 500) 1000
       let burn := ⌈(share : ℚ) * (mkRat 8 100)⌉
       let commission := ⌈(share : ℚ) * (mkRat 12 100)⌉
       if (1000000 : Int) < 650 + burn + commission then .err .notEnoughBalance
       else
         .ok (ledgerAdd
           (ledgerSet [("account1", [("denom1", 1000000)])] "account1" "denom1"
             (1000000 - (650 + burn + commission)))
           "issuer_account_A" "denom1" commission)) :=
  nonissuer_leg_fees [("denom1", ⟨"denom1", "issuer_account_A", mkRat 8 100, mkRat 12 100⟩)]
    [("denom1", 1000)] [("denom1", 500)] [("denom1", 1000)]
    [("account1", [("denom1", 1000000)])] "account1" ⟨"denom1", 650⟩
    ⟨"denom1", "issuer_account_A", mkRat 8 100, mkRat 12 100⟩
    1000 500 1000 1000000
    (by decide) (by decide) (by decide) (by decide) (by decide) (by decide)
    (by decide) (by decide)

/-- C5: an input leg whose sender is the denom's issuer pays no burn and no
    commission, for every value of the two rates: the leg is debited exactly
    its stated amount (or fails the sufficiency check against exactly that
    amount), and the sender's resulting ledger entry is `bal - amount`. -/
theorem issuer_leg_exempt (defMap : DefMap) (nonIn nonOut totIn : AmountMap)
    (led : Ledger) (addr : String) (c : Coin) (defn : DenomDefinition)
    (niv nov tv bal : Int)
    (hdef : List.lookup c.denom defMap = some defn)
    (hiss : defn.issuer = addr)
    (hni : List.lookup c.denom nonIn = some niv)
    (hno : List.lookup c.denom nonOut = some nov)
    (hti : List.lookup c.denom totIn = some tv)
    (hbal : ledgerLookup led addr c.denom = some bal) :
    processLeg defMap nonIn nonOut totIn led addr c =
      (if bal < c.amount then .err .notEnoughBalance
       else .ok (ledgerAdd (ledgerSet led addr c.denom (bal - c.amount)) addr c.denom 0)) ∧
    ledgerLookup (ledgerAdd (ledgerSet led addr c.denom (bal - c.amount)) addr c.denom 0)
      addr c.denom = some (bal - c.amount) := by
  constructor
  · unfold processLeg
    simp only [hdef, hbal, hni, hno, hti]
    rw [if_neg (by simp [hiss])]
    simp [settleLeg, hiss]
  · rw [ledgerLookup_add_self, ledgerLookup_set_self]
    simp

/-- C5 witness: the theorem applied to the issuer leg of reference
    scenario 3 (issuer sends 25 denom1, rates 0.1 and 0). -/
theorem issuer_leg_exempt_witness :
    processLeg [("denom1", ⟨"denom1", "issuer_account_A", mkRat 1 10, 0⟩)]
      [("denom1", 150)] [("denom1", 75)] [("denom1", 175)]
      [("issuer_account_A", [("denom1", 1000000)])] "issuer_account_A" ⟨"denom1", 25⟩ =
      (if (1000000 : Int) < 25 then .err .notEnoughBalance
       else
         .ok (ledgerAdd
           (ledgerSet [("issuer_account_A", [("denom1", 1000000)])] "issuer_account_A"
             "denom1" (1000000 - 25))
           "issuer_account_A" "denom1" 0)) ∧
    ledgerLookup
      (ledgerAdd
        (ledgerSet [("issuer_account_A", [("denom1", 1000000)])] "issuer_account_A"
          "denom1" (1000000 - 25))
        "issuer_account_A" "denom1" 0) "issuer_account_A" "denom1" = some (1000000 - 25) :=
  issuer_leg_exempt [("denom1", ⟨"denom1", "issuer_account_A", mkRat 1 10, 0⟩)]
    [("denom1", 150)] [("denom1", 75)] [("denom1", 175)]
    [("issuer_account_A", [("denom1", 1000000)])] "issuer_account_A" ⟨"denom1", 25⟩
    ⟨"denom1", "issuer_account_A", mkRat 1 10, 0⟩ 150 75 175 1000000
    (by decide) (by decide) (by decide) (by decide) (by decide) (by decide)

/-- C6 counterexample: on `panicTx`, sender "B" has no ledger entry at all
    for its leg's denom "e" — the claimed condition for `InsufficientBalance`
    — yet the function does not return that error: the earlier zero-amount
    leg of denom "d" panics on the missing `non_issuer_output` entry first. -/
theorem insufficient_masked_by_panic :
    calculate_balance_changes panicOrig panicDefs panicTx = .panicked .unwrapNone ∧
    ledgerLookup (buildLedger panicOrig) "B" "e" = none := by
  decide

/-- C6 (amended): once aggregation of both sides has succeeded, the
    conservation check has passed, and every denom appearing among the input
    legs has a non-zero total input (so the fee loop cannot panic), the
    function returns `InsufficientBalance` exactly when, processing input legs
    in order over the working ledger, some leg's sender has no ledger entry
    for the leg's denom or holds strictly less than
    `amount + burn + commission` (`firstShortfall`); and an error return
    carries no deltas by construction of the result type. -/
theorem insufficient_balance_iff_shortfall (o : List Balance)
    (defs : List DenomDefinition) (tx : MultiSend)
    (totIn nonIn totOut nonOut : AmountMap)
    (hIn : aggregateLegs (buildDefMap defs) (legsOf tx.inputs) [] [] = .ok (totIn, nonIn))
    (hOut : aggregateLegs (buildDefMap defs) (legsOf tx.outputs) [] [] = .ok (totOut, nonOut))
    (hCons : checkConservation totIn totOut = true)
    (hNZ : ∀ p ∈ legsOf tx.inputs, List.lookup p.2.denom totIn ≠ some 0) :
    calculate_balance_changes o defs tx = .err .notEnoughBalance ↔
      firstShortfall (buildDefMap defs) nonIn nonOut totIn (legsOf tx.inputs)
        (buildLedger o) = true := by
  have hOK := legOK_of hIn hOut hCons hNZ
  have hiff := applyInputs_insufficient_iff _ _ _ _ _ hOK (buildLedger o)
  rw [calculate_eq_of_stages o hIn hOut hCons]
  refine Iff.trans ?_ hiff
  cases happ : applyInputs (buildDefMap defs) nonIn nonOut totIn (legsOf tx.inputs)
      (buildLedger o) with
  | ok led => simp
  | err e => simp
  | panicked p => simp

/-- C6 witness: the theorem applied to a one-leg transfer whose sender holds
    1 "d" but owes 5; both sides of the instantiated equivalence hold. -/
theorem insufficient_balance_iff_shortfall_witness :
    (calculate_balance_changes [⟨"A", [⟨"d", 1⟩]⟩] [⟨"d", "iss", 0, 0⟩]
        ⟨[⟨"A", [⟨"d", 5⟩]⟩], [⟨"C", [⟨"d", 5⟩]⟩]⟩ = .err .notEnoughBalance ↔
      firstShortfall (buildDefMap [⟨"d", "iss", 0, 0⟩]) [("d", 5)] [("d", 5)] [("d", 5)]
        (legsOf [⟨"A", [⟨"d", 5⟩]⟩]) (buildLedger [⟨"A", [⟨"d", 1⟩]⟩]) = true) :=
  insufficient_balance_iff_shortfall [⟨"A", [⟨"d", 1⟩]⟩] [⟨"d", "iss", 0, 0⟩]
    ⟨[⟨"A", [⟨"d", 5⟩]⟩], [⟨"C", [⟨"d", 5⟩]⟩]⟩
    [("d", 5)] [("d", 5)] [("d", 5)] [("d", 5)]
    rfl rfl (by decide) (by decide)

/-- C7 counterexample: on `divZeroTx` the denom "d" has total input 0 and a
    non-issuer input leg with a ledger entry, so the share computation
    divides by zero: the run is a (modelled) panic, not an Ok or Err return,
    refuting the claim that the division by `total_input` never divides by
    zero. -/
theorem division_by_zero_panic :
    calculate_balance_changes divZeroOrig divZeroDefs divZeroTx = .panicked .divByZero := by
  decide

/-- C7 (amended): the calculation always terminates (it is a total function),
    and it returns a value — Ok or one of the three errors, never a panic —
    provided every denom appearing among the input legs has a non-zero total
    input; with a zero total the division by `total_input[denom]` (or the
    unwrap of a missing `non_issuer_output` entry) is reachable, as the
    counterexample shows. -/
theorem no_panic_of_nonzero_totals (o : List Balance) (defs : List DenomDefinition)
    (tx : MultiSend)
    (hNZ : ∀ totIn nonIn : AmountMap,
      aggregateLegs (buildDefMap defs) (legsOf tx.inputs) [] [] = .ok (totIn, nonIn) →
      ∀ p ∈ legsOf tx.inputs, List.lookup p.2.denom totIn ≠ some 0) :
    (∃ l, calculate_balance_changes o defs tx = .ok l) ∨
    (∃ e, calculate_balance_changes o defs tx = .err e) := by
  cases hIn : aggregateLegs (buildDefMap defs) (legsOf tx.inputs) [] [] with
  | error e => exact Or.inr ⟨e, calculate_eq_err_aggIn hIn⟩
  | ok pIn =>
    obtain ⟨totIn, nonIn⟩ := pIn
    cases hOut : aggregateLegs (buildDefMap defs) (legsOf tx.outputs) [] [] with
    | error e => exact Or.inr ⟨e, calculate_eq_err_aggOut hIn hOut⟩
    | ok pOut =>
      obtain ⟨totOut, nonOut⟩ := pOut
      cases hc : checkConservation totIn totOut with
      | false => exact Or.inr ⟨.inputOutputMismatch, calculate_eq_err_imbalanced hIn hOut hc⟩
      | true =>
        have hOK := legOK_of hIn hOut hc (hNZ totIn nonIn hIn)
        have hcalc := calculate_eq_of_stages o hIn hOut hc
        rcases applyInputs_cases _ _ _ _ _ hOK (buildLedger o) with ⟨led, hled⟩ | herr
        · exact Or.inl ⟨diffBalances o (ledgerToBalances (applyOutputs (legsOf tx.outputs) led)),
            by rw [hcalc, hled]⟩
        · exact Or.inr ⟨.notEnoughBalance, by rw [hcalc, herr]⟩

/-- C7 witness: the theorem applied to reference scenario 2 (all totals
    non-zero), which indeed returns a value. -/
theorem no_panic_of_nonzero_totals_witness :
    (∃ l, calculate_balance_changes refOrig refDefs refTx = .ok l) ∨
    (∃ e, calculate_balance_changes refOrig refDefs refTx = .err e) :=
  no_panic_of_nonzero_totals refOrig refDefs refTx
    (by
      intro totIn nonIn h
      rw [show aggregateLegs (buildDefMap refDefs) (legsOf refTx.inputs) [] [] =
          Except.ok ([("denom1", (1000 : Int))], [("denom1", (1000 : Int))]) from rfl] at h
      cases h
      decide)

/-- C8: on the concrete inputs of reference scenario 2, the calculation
    returns Ok with exactly the deltas account1 -715, account2 -385,
    issuer_account_A +560, account_recipient +500. -/
theorem reference_scenario_two :
    calculate_balance_changes refOrig refDefs refTx =
      .ok [⟨"account1", [⟨"denom1", -715⟩]⟩, ⟨"account2", [⟨"denom1", -385⟩]⟩,
           ⟨"issuer_account_A", [⟨"denom1", 560⟩]⟩,
           ⟨"account_recipient", [⟨"denom1", 500⟩]⟩] := by
  decide

/-- C9: whenever some input or output leg carries a coin whose denom has no
    entry in the definitions catalog, the calculation fails with
    `UndefinedDenomination` — whichever side the offending coin is on, and
    before the conservation check or any fee is considered. -/
theorem undefined_denom_rejected (o : List Balance) (defs : List DenomDefinition)
    (tx : MultiSend)
    (h : ∃ p ∈ legsOf tx.inputs ++ legsOf tx.outputs, ∀ defn ∈ defs, defn.denom ≠ p.2.denom) :
    calculate_balance_changes o defs tx = .err .undefinedDefinition := by
  rcases h with ⟨p, hp, hnone⟩
  have hlook : List.lookup p.2.denom (buildDefMap defs) = none :=
    lookup_buildDefMap_none defs _ hnone
  by_cases hin : ∃ q ∈ legsOf tx.inputs, List.lookup q.2.denom (buildDefMap defs) = none
  · exact calculate_eq_err_aggIn (aggregateLegs_err_of_none _ _ _ _ hin)
  · push_neg at hin
    have hdefined : ∀ q ∈ legsOf tx.inputs, (List.lookup q.2.denom (buildDefMap defs)).isSome := by
      intro q hq
      cases hq2 : List.lookup q.2.denom (buildDefMap defs) with
      | none => exact absurd hq2 (hin q hq)
      | some _ => rfl
    obtain ⟨t, n, hIn⟩ := aggregateLegs_ok_of_defined _ _ [] [] hdefined
    have hpout : p ∈ legsOf tx.outputs := by
      rcases List.mem_append.mp hp with hmem | hmem
      · exact absurd hlook (hin p hmem)
      · exact hmem
    exact calculate_eq_err_aggOut hIn (aggregateLegs_err_of_none _ _ _ _ ⟨p, hpout, hlook⟩)

/-- C9 witness: a transfer whose single output coin names the denom "x",
    absent from an empty catalog, is rejected with `UndefinedDenomination`. -/
theorem undefined_denom_rejected_witness :
    calculate_balance_changes [] [] ⟨[], [⟨"B", [⟨"x", 1⟩]⟩]⟩ = .err .undefinedDefinition :=
  undefined_denom_rejected [] [] ⟨[], [⟨"B", [⟨"x", 1⟩]⟩]⟩
    ⟨("B", ⟨"x", 1⟩), by decide, by decide⟩

/-- C10: the code performs no sign validation on leg amounts: `negTx` has a
    negative input leg of -5 "d", its per-denom input and output totals agree
    (both -5), the function returns Ok, and the "debit" increases the
    sender's balance — A held 10 and its returned delta is +5. -/
theorem negative_amount_accepted :
    aggregateLegs (buildDefMap negDefs) (legsOf negTx.inputs) [] [] =
      .ok ([("d", -5)], [("d", -5)]) ∧
    aggregateLegs (buildDefMap negDefs) (legsOf negTx.outputs) [] [] =
      .ok ([("d", -5)], [("d", -5)]) ∧
    calculate_balance_changes negOrig negDefs negTx =
      .ok [⟨"A", [⟨"d", 5⟩]⟩, ⟨"C", [⟨"d", -5⟩]⟩] ∧
    ledgerLookup (buildLedger negOrig) "A" "d" = some 10 :=
  ⟨rfl, rfl, by decide, by decide⟩

end MultiSendCalc
